import Mathlib

/-!
Verification of the SQLGenius tool server (`sql_mcp_server.py`).

Strings are modelled as `List Char`; the Python string operations used by the
server (`in`, `find`, `split`, `strip`, `lower`, `upper`, `startswith`) are
translated below with their exact semantics (left-to-right, non-overlapping
scans; ASCII case mapping).  The four tool operations are translated as pure
functions of their injected collaborators: the warehouse query runner
(`db.run`), the catalog table-listing call (`get_available_tables`), the
catalog table fetch (`client.get_table`) and the model client (`llm.invoke`),
each modelled as an `Except`-valued function (an `Except.error` is a raised
Python exception).  Each operation additionally returns the list of SQL
strings passed to the warehouse query runner, so that "the warehouse client
was never invoked" is expressible as that list being empty.
-/

namespace SQLMCP

/-- Characters of a string literal; the representation used throughout. -/
def strL (s : String) : List Char := s.toList

/-- Python `str.startswith` on character lists. -/
def startsWith : List Char → List Char → Bool
  | [], _ => true
  | _ :: _, [] => false
  | p :: ps, c :: cs => p == c && startsWith ps cs

/-- Python substring membership (the `in` operator on strings). -/
def containsSub (n : List Char) : List Char → Bool
  | [] => startsWith n []
  | c :: cs => startsWith n (c :: cs) || containsSub n cs

/-- Python `str.find`: index of the first occurrence, `none` for Python's `-1`. -/
def findSub (n : List Char) : List Char → Option Nat
  | [] => if startsWith n [] then some 0 else none
  | c :: cs => if startsWith n (c :: cs) then some 0 else (findSub n cs).map (· + 1)

/-- Worker for `splitOn`, recursing on an explicit fuel so that the kernel can
evaluate it; the fuel is always at least the length of the scanned list. -/
def splitGo (sep : List Char) : Nat → List Char → List Char → List (List Char)
  | _, [], acc => [acc.reverse]
  | 0, s, acc => [acc.reverse ++ s]
  | fuel + 1, c :: cs, acc =>
    if !sep.isEmpty && startsWith sep (c :: cs) then
      acc.reverse :: splitGo sep fuel ((c :: cs).drop sep.length) []
    else
      splitGo sep fuel cs (c :: acc)

/-- Python `str.split` with a non-empty separator: a greedy left-to-right scan
for non-overlapping occurrences of the separator. -/
def splitOn (sep s : List Char) : List (List Char) := splitGo sep s.length s []

/-- Python whitespace, as stripped by `str.strip()`. -/
def pyIsSpace (c : Char) : Bool :=
  c == ' ' || c == '\t' || c == '\n' || c == '\r' || c == '\x0b' || c == '\x0c'

/-- Python `str.strip()`: drop whitespace from both ends. -/
def pyStrip (s : List Char) : List Char :=
  ((s.dropWhile pyIsSpace).reverse.dropWhile pyIsSpace).reverse

/-- ASCII lower-casing of one character, as Python `str.lower` acts on ASCII. -/
def lowerChar (c : Char) : Char :=
  if 65 ≤ c.toNat ∧ c.toNat ≤ 90 then Char.ofNat (c.toNat + 32) else c

/-- ASCII upper-casing of one character, as Python `str.upper` acts on ASCII. -/
def upperChar (c : Char) : Char :=
  if 97 ≤ c.toNat ∧ c.toNat ≤ 122 then Char.ofNat (c.toNat - 32) else c

/-- Python `str.lower`. -/
def pyLower (s : List Char) : List Char := s.map lowerChar

/-- Python `str.upper`. -/
def pyUpper (s : List Char) : List Char := s.map upperChar

/-- The fence delimiter looked for by `_extract_sql_query`. -/
def fence : List Char := strL "```"

/-- The SQL-tagged fence opener looked for by `_extract_sql_query`. -/
def fsql : List Char := strL "```sql"

/-- The language tag stripped from the start of an untagged block. -/
def sqlTag : List Char := strL "sql"

/-- The keyword scanned for, against the upper-cased response. -/
def cSELECT : List Char := strL "SELECT"

/-- `dangerous_keywords` from `validate_query` (source line 218). -/
def dangerous_keywords : List (List Char) :=
  [strL "insert", strL "update", strL "delete", strL "drop", strL "alter", strL "create"]

/-- `validate_query` (source lines 216-219): the query is safe when none of the
denylist words occurs in its lower-cased text. -/
def validate_query (query : List Char) : Bool :=
  !(dangerous_keywords.any fun keyword => containsSub keyword (pyLower query))

/-- Rule 1 of `_extract_sql_query` (source line 226):
`llm_response.split("` `` `sql")[1].split("` `` `")[0].strip()`. -/
def rule1Val (s : List Char) : List Char :=
  pyStrip ((splitOn fence ((splitOn fsql s).getD 1 [])).getD 0 [])

/-- The per-block post-processing inside the rule-2 loop (source lines 231-234):
strip the block, drop a leading `sql` tag, strip again. -/
def tagStrip (b : List Char) : List Char :=
  let q := pyStrip b
  if startsWith sqlTag q then pyStrip (q.drop 3) else q

/-- The rule-2 loop (source lines 229-234): `for i in range(1, len(code_blocks), 2)`,
returning the first segment at an odd index whose upper-casing contains `SELECT`. -/
def findSelectBlock : List (List Char) → Option (List Char)
  | [] => none
  | [_] => none
  | _ :: b :: rest =>
    if containsSub cSELECT (pyUpper b) then some b else findSelectBlock rest

/-- Rule-3 truncation (source lines 238-246): collect the offsets of the four
end-markers that are found (Python filters out the `-1` of a missed `find`),
and truncate at their minimum when any were found. -/
def rule3Trunc (q : List Char) : List Char :=
  match [findSub (strL "\n\n") q, findSub (strL "\r\n\r\n") q,
         findSub (strL ". ") q, findSub (strL ".\n") q].filterMap id with
  | [] => q
  | e :: es => q.take (es.foldl Nat.min e)

/-- Rule 3 of `_extract_sql_query` (source lines 235-248): slice from the first
occurrence of `SELECT` in the upper-cased response, truncate, strip.  The
`getD 0` default is never taken: the branch guard guarantees an occurrence. -/
def rule3Val (s : List Char) : List Char :=
  pyStrip (rule3Trunc (s.drop ((findSub cSELECT (pyUpper s)).getD 0)))

/-- `_extract_sql_query` (source lines 221-254).  When the rule-2 loop finds no
odd-indexed segment containing `SELECT`, the Python falls through to
`return query` with `query` unbound; the resulting `UnboundLocalError` is
caught by the blanket `except` and the function returns `None` — hence the
`Option.map` over `findSelectBlock`. -/
def extractSqlQuery (s : List Char) : Option (List Char) :=
  if containsSub fsql s then some (rule1Val s)
  else if containsSub fence s && containsSub cSELECT (pyUpper s) then
    (findSelectBlock (splitOn fence s)).map tagStrip
  else if containsSub cSELECT (pyUpper s) then some (rule3Val s)
  else none

/-- One formatted schema field, as built by `get_table_schema` (lines 194-198). -/
structure SchemaEntry where
  name : List Char
  fieldType : List Char
  description : Option (List Char)
deriving DecidableEq

/-- A catalog table as reported by the warehouse client (`client.get_table`). -/
structure BQTable where
  schema : List SchemaEntry
  num_rows : Nat
  num_bytes : Nat
deriving DecidableEq

/-- The result mapping returned by the four operations: a dictionary whose keys
vary by outcome.  A key absent from the Python dict is `none` here. -/
structure ToolResult where
  error : Option (List Char) := none
  explanation : Option (List Char) := none
  query : Option (List Char) := none
  result : Option (List Char) := none
  success : Option Bool := none
  tables : Option (List (List Char)) := none
  project_id : Option (List Char) := none
  dataset_id : Option (List Char) := none
  count : Option Nat := none
  table_name : Option (List Char) := none
  schema : Option (List SchemaEntry) := none
  num_rows : Option Nat := none
  size_bytes : Option Nat := none
deriving DecidableEq

/-- An error-shaped result mapping: one carrying an `error` key. -/
def errorShaped (r : ToolResult) : Bool := r.error.isSome

/-- The fixed rejection result built on safety-gate failure (lines 97-100 and
132-135). -/
def rejectResult : ToolResult :=
  { error := some (strL "Only SELECT queries are allowed"),
    explanation := some (strL "For security reasons, only SELECT queries are permitted.") }

/-- The prompt built by `execute_nl_query` (source lines 77-81). -/
def mkPrompt (tables : List (List Char)) (query : List Char) : List Char :=
  strL "Available tables: " ++ List.intercalate (strL ", ") tables ++ strL ". " ++
    strL "\nUser query: " ++ query ++ strL "\nGenerate and execute an appropriate SQL query."

/-- `execute_sql_query` (source lines 120-151).  `db` is the warehouse query
runner `self.db.run`; an `Except.error` is a raised exception.  The second
component records every string passed to the warehouse query runner. -/
def execute_sql_query (db : List Char → Except (List Char) (List Char))
    (query : List Char) : Except (List Char) ToolResult × List (List Char) :=
  if !validate_query query then (Except.ok rejectResult, [])
  else
    match db query with
    | Except.ok r =>
      (Except.ok { query := some query, result := some r, success := some true }, [query])
    | Except.error e =>
      (Except.ok { error := some (strL "Error executing query: " ++ e),
                   query := some query, success := some false }, [query])

/-- `execute_nl_query` (source lines 66-116).  The table-listing call (line 77)
and the model invocation (line 84) sit outside any `try` block, so their
exceptions propagate (`Except.error`); only the warehouse execution of the
extracted query (lines 103-116) is wrapped.  `if not sql_query` is Python
truthiness: it fires on `None` and on the empty string alike. -/
def execute_nl_query (tablesC : Except (List Char) (List (List Char)))
    (llm : List Char → Except (List Char) (List Char))
    (db : List Char → Except (List Char) (List Char))
    (query : List Char) : Except (List Char) ToolResult × List (List Char) :=
  match tablesC with
  | Except.error e => (Except.error e, [])
  | Except.ok tables =>
    match llm (mkPrompt tables query) with
    | Except.error e => (Except.error e, [])
    | Except.ok llm_response =>
      match extractSqlQuery llm_response with
      | none =>
        (Except.ok { error := some (strL "Could not generate valid SQL query"),
                     explanation := some llm_response }, [])
      | some sql_query =>
        if sql_query.isEmpty then
          (Except.ok { error := some (strL "Could not generate valid SQL query"),
                       explanation := some llm_response }, [])
        else if !validate_query sql_query then (Except.ok rejectResult, [])
        else
          match db sql_query with
          | Except.ok r =>
            (Except.ok { query := some sql_query, result := some r,
                         explanation := some llm_response }, [sql_query])
          | Except.error e =>
            (Except.ok { error := some (strL "Error executing query: " ++ e),
                         query := some sql_query,
                         explanation := some llm_response }, [sql_query])

/-- `list_tables` (source lines 154-173): the whole body is wrapped in
`try`/`except`; `tablesC` is the catalog listing call. -/
def list_tables (tablesC : Except (List Char) (List (List Char)))
    (project_id dataset_id : List Char) :
    Except (List Char) ToolResult × List (List Char) :=
  match tablesC with
  | Except.ok tables =>
    (Except.ok { tables := some tables, project_id := some project_id,
                 dataset_id := some dataset_id, count := some tables.length }, [])
  | Except.error e =>
    (Except.ok { error := some (strL "Error listing tables: " ++ e) }, [])

/-- `get_table_schema` (source lines 176-209): the whole body is wrapped in
`try`/`except`; `getTable` is the catalog table fetch. -/
def get_table_schema (getTable : List Char → Except (List Char) BQTable)
    (table_name : List Char) : Except (List Char) ToolResult × List (List Char) :=
  match getTable table_name with
  | Except.ok t =>
    (Except.ok { table_name := some table_name, schema := some t.schema,
                 num_rows := some t.num_rows, size_bytes := some t.num_bytes }, [])
  | Except.error e =>
    (Except.ok { error := some (strL "Error getting schema for table " ++ table_name ++
                                strL ": " ++ e) }, [])

/-- Spec-side substring relation: `n` occurs somewhere inside `h`. -/
def IsSub (n h : List Char) : Prop := ∃ u v, h = u ++ n ++ v

/-- Spec-side: the elements of a list sitting at odd indices. -/
def oddIndexed {α : Type} : List α → List α
  | [] => []
  | [_] => []
  | _ :: b :: rest => b :: oddIndexed rest

/-- A stub warehouse query runner used by concrete witnesses. -/
def dbStub : List Char → Except (List Char) (List Char) :=
  fun _ => Except.ok (strL "ROWS")

/-! ## Bridging lemmas: the boolean scans versus their mathematical meaning -/

theorem startsWith_iff {p s : List Char} : startsWith p s = true ↔ ∃ t, s = p ++ t := by
  induction p generalizing s with
  | nil => simp [startsWith]
  | cons a ps ih =>
    cases s with
    | nil => simp [startsWith]
    | cons c cs =>
      simp only [startsWith, Bool.and_eq_true, beq_iff_eq, ih, List.cons_append]
      constructor
      · rintro ⟨rfl, t, rfl⟩; exact ⟨t, rfl⟩
      · rintro ⟨t, h⟩; cases h; exact ⟨rfl, t, rfl⟩

theorem startsWith_length {p s : List Char} (h : startsWith p s = true) :
    p.length ≤ s.length := by
  obtain ⟨t, rfl⟩ := startsWith_iff.mp h
  simp

theorem startsWith_append_ext {p y : List Char} (z : List Char)
    (h : startsWith p y = true) : startsWith p (y ++ z) = true := by
  obtain ⟨t, rfl⟩ := startsWith_iff.mp h
  exact startsWith_iff.mpr ⟨t ++ z, by simp⟩

theorem startsWith_of_append_le {p y z : List Char} (hl : p.length ≤ y.length)
    (h : startsWith p (y ++ z) = true) : startsWith p y = true := by
  induction p generalizing y z with
  | nil => simp [startsWith]
  | cons a ps ih =>
    cases y with
    | nil => simp at hl
    | cons c cs =>
      simp only [List.cons_append, startsWith, Bool.and_eq_true] at h ⊢
      exact ⟨h.1, ih (by simpa using hl) h.2⟩

theorem containsSub_iff {n h : List Char} : containsSub n h = true ↔ IsSub n h := by
  induction h with
  | nil =>
    simp only [containsSub, IsSub, startsWith_iff]
    constructor
    · rintro ⟨t, ht⟩
      exact ⟨[], t, by simpa using ht⟩
    · rintro ⟨u, v, huv⟩
      have hu : u = [] := by
        cases u with
        | nil => rfl
        | cons a as => simp at huv
      subst hu
      exact ⟨v, by simpa using huv⟩
  | cons c cs ih =>
    simp only [containsSub, Bool.or_eq_true, ih, startsWith_iff, IsSub]
    constructor
    · rintro (⟨t, ht⟩ | ⟨u, v, rfl⟩)
      · exact ⟨[], t, by simpa using ht⟩
      · exact ⟨c :: u, v, by simp⟩
    · rintro ⟨u, v, huv⟩
      cases u with
      | nil => exact Or.inl ⟨v, by simpa using huv⟩
      | cons a as =>
        simp only [List.cons_append, List.cons.injEq] at huv
        exact Or.inr ⟨as, v, huv.2⟩

theorem containsSub_of_startsWith {n h : List Char} (hs : startsWith n h = true) :
    containsSub n h = true := by
  obtain ⟨t, rfl⟩ := startsWith_iff.mp hs
  exact containsSub_iff.mpr ⟨[], t, by simp⟩

theorem IsSub.length_le {n h : List Char} (hs : IsSub n h) : n.length ≤ h.length := by
  obtain ⟨u, v, rfl⟩ := hs
  simp; omega

theorem containsSub_append_right {n u v : List Char} (hc : containsSub n v = true) :
    containsSub n (u ++ v) = true := by
  obtain ⟨x, y, rfl⟩ := containsSub_iff.mp hc
  exact containsSub_iff.mpr ⟨u ++ x, y, by simp⟩

theorem containsSub_take {n h : List Char} (k : Nat)
    (hc : containsSub n (h.take k) = true) : containsSub n h = true := by
  obtain ⟨u, v, huv⟩ := containsSub_iff.mp hc
  refine containsSub_iff.mpr ⟨u, v ++ h.drop k, ?_⟩
  conv_lhs => rw [← List.take_append_drop k h]
  rw [huv]; simp

theorem fsql_fence {s : List Char} (hc : containsSub fsql s = true) :
    containsSub fence s = true := by
  obtain ⟨u, v, rfl⟩ := containsSub_iff.mp hc
  exact containsSub_iff.mpr ⟨u, sqlTag ++ v, by simp [fsql, fence, sqlTag, strL]⟩

/-! ## The split scan -/

theorem splitGo_fuel {sep : List Char} : ∀ (f g : Nat) (s acc : List Char),
    s.length ≤ f → s.length ≤ g → splitGo sep f s acc = splitGo sep g s acc := by
  intro f
  induction f with
  | zero =>
    intro g s acc hf _
    have : s = [] := by cases s <;> simp_all
    subst this
    cases g <;> simp [splitGo]
  | succ f ih =>
    intro g s acc hf hg
    cases s with
    | nil => cases g <;> simp [splitGo]
    | cons c cs =>
      cases g with
      | zero => simp at hg
      | succ g =>
        simp only [splitGo]
        by_cases hcond : (!sep.isEmpty && startsWith sep (c :: cs)) = true
        · rw [if_pos hcond, if_pos hcond]
          have hsep : 1 ≤ sep.length := by
            cases sep with
            | nil => simp at hcond
            | cons a as => simp
          have hlen1 : ((c :: cs).drop sep.length).length ≤ f := by
            simp only [List.length_drop, List.length_cons] at *
            omega
          have hlen2 : ((c :: cs).drop sep.length).length ≤ g := by
            simp only [List.length_drop, List.length_cons] at *
            omega
          rw [ih g _ _ hlen1 hlen2]
        · rw [if_neg hcond, if_neg hcond]
          exact ih g cs (c :: acc) (by simp only [List.length_cons] at hf ⊢; omega)
            (by simp only [List.length_cons] at hg ⊢; omega)

theorem splitGo_no {sep : List Char} : ∀ (f : Nat) (s acc : List Char),
    s.length ≤ f → containsSub sep s = false → splitGo sep f s acc = [acc.reverse ++ s] := by
  intro f
  induction f with
  | zero =>
    intro s acc hf _
    have : s = [] := by cases s <;> simp_all
    subst this; simp [splitGo]
  | succ f ih =>
    intro s acc hf hc
    cases s with
    | nil => simp [splitGo]
    | cons c cs =>
      have hboth : startsWith sep (c :: cs) = false ∧ containsSub sep cs = false := by
        constructor <;>
          · revert hc
            simp only [containsSub, Bool.or_eq_false_iff]
            tauto
      simp only [splitGo]
      rw [if_neg (by simp [hboth.1])]
      rw [ih cs (c :: acc) (by simp only [List.length_cons] at hf ⊢; omega) hboth.2]
      simp

theorem splitOn_no {sep s : List Char} (hc : containsSub sep s = false) :
    splitOn sep s = [s] := by
  simpa using splitGo_no s.length s [] le_rfl hc

theorem startsWith_refl {p : List Char} : startsWith p p = true :=
  startsWith_iff.mpr ⟨[], by simp⟩

theorem splitGo_cons {sep : List Char} (R : List Char) (hsep : sep ≠ []) :
    ∀ (A : List Char) (fuel : Nat) (acc : List Char),
    containsSub sep (A ++ sep.dropLast) = false →
    A.length + sep.length + R.length ≤ fuel →
    splitGo sep fuel (A ++ sep ++ R) acc = (acc.reverse ++ A) :: splitOn sep R := by
  have hsl : 1 ≤ sep.length := by cases sep with
    | nil => exact absurd rfl hsep
    | cons a as => simp
  intro A
  induction A with
  | nil =>
    intro fuel acc _ hfuel
    simp only [List.length_nil, Nat.zero_add] at hfuel
    cases fuel with
    | zero => omega
    | succ f =>
      obtain ⟨a, as, hsepeq⟩ := List.exists_cons_of_ne_nil hsep
      have hsw : startsWith sep (sep ++ R) = true :=
        startsWith_append_ext R startsWith_refl
      subst hsepeq
      simp only [List.cons_append] at hsw
      simp only [List.nil_append, List.cons_append, splitGo]
      rw [if_pos (by simp [hsw])]
      simp only [List.length_cons, List.drop_succ_cons, List.append_eq, List.drop_left]
      rw [splitGo_fuel f R.length R []
        (by simp only [List.length_cons] at hfuel; omega) le_rfl]
      simp [splitOn]
  | cons x A ih =>
    intro fuel acc h hfuel
    simp only [List.cons_append] at h
    simp only [List.length_cons] at hfuel
    cases fuel with
    | zero => omega
    | succ f =>
      have hsw : startsWith sep (x :: (A ++ (sep ++ R))) = false := by
        by_contra hcon
        simp only [Bool.not_eq_false] at hcon
        have hre : x :: (A ++ (sep ++ R)) =
            (x :: (A ++ sep.dropLast)) ++ ([sep.getLast hsep] ++ R) := by
          conv_lhs => rw [← List.dropLast_append_getLast hsep]
          simp
        rw [hre] at hcon
        have hle : sep.length ≤ (x :: (A ++ sep.dropLast)).length := by
          simp [List.length_dropLast]; omega
        have h2 := containsSub_of_startsWith (startsWith_of_append_le hle hcon)
        rw [h2] at h
        exact absurd h (by simp)
      have hA : containsSub sep (A ++ sep.dropLast) = false := by
        revert h
        simp only [containsSub, Bool.or_eq_false_iff]
        tauto
      simp only [List.cons_append, splitGo]
      rw [if_neg (by simp [hsw])]
      simp only [List.append_eq]
      rw [ih f (x :: acc) hA (by omega)]
      simp

theorem splitOn_cons {sep A R : List Char} (hsep : sep ≠ [])
    (h : containsSub sep (A ++ sep.dropLast) = false) :
    splitOn sep (A ++ sep ++ R) = A :: splitOn sep R := by
  have := splitGo_cons R hsep A (A ++ sep ++ R).length [] h
    (by simp only [List.length_append]; omega)
  simpa [splitOn] using this

theorem splitGo_mem {sep : List Char} : ∀ (fuel : Nat) (s acc b : List Char),
    s.length ≤ fuel → b ∈ splitGo sep fuel s acc → IsSub b (acc.reverse ++ s) := by
  intro fuel
  induction fuel with
  | zero =>
    intro s acc b hf hb
    have : s = [] := by cases s <;> simp_all
    subst this
    simp only [splitGo, List.mem_singleton] at hb
    exact ⟨[], [], by simp [hb]⟩
  | succ f ih =>
    intro s acc b hf hb
    cases s with
    | nil =>
      simp only [splitGo, List.mem_singleton] at hb
      exact ⟨[], [], by simp [hb]⟩
    | cons c cs =>
      simp only [splitGo] at hb
      by_cases hcond : (!sep.isEmpty && startsWith sep (c :: cs)) = true
      · rw [if_pos hcond] at hb
        rcases List.mem_cons.mp hb with hb | hb
        · exact ⟨[], c :: cs, by simp [hb]⟩
        · have hsl : 1 ≤ sep.length := by
            cases sep with
            | nil => simp at hcond
            | cons a as => simp
          have hlen : ((c :: cs).drop sep.length).length ≤ f := by
            simp only [List.length_drop, List.length_cons] at *
            omega
          obtain ⟨u, v, huv⟩ := ih _ [] b hlen hb
          simp only [List.reverse_nil, List.nil_append] at huv
          refine ⟨acc.reverse ++ (c :: cs).take sep.length ++ u, v, ?_⟩
          conv_lhs => rw [← List.take_append_drop sep.length (c :: cs), huv]
          simp
      · rw [if_neg hcond] at hb
        have := ih cs (c :: acc) b
          (by simp only [List.length_cons] at hf; omega) hb
        simpa using this

theorem splitOn_mem {sep s b : List Char} (hb : b ∈ splitOn sep s) : IsSub b s := by
  simpa using splitGo_mem s.length s [] b le_rfl hb

theorem first_occ {sep : List Char} (hsep : sep ≠ []) :
    ∀ (X : List Char), containsSub sep X = true →
    ∃ U V, X = U ++ sep ++ V ∧ containsSub sep (U ++ sep.dropLast) = false := by
  have hsl : 1 ≤ sep.length := by cases sep with
    | nil => exact absurd rfl hsep
    | cons a as => simp
  intro X
  induction X with
  | nil =>
    intro hc
    obtain ⟨u, v, huv⟩ := containsSub_iff.mp hc
    exfalso
    have := congrArg List.length huv
    simp at this
    omega
  | cons c cs ih =>
    intro hc
    by_cases hsw : startsWith sep (c :: cs) = true
    · obtain ⟨t, ht⟩ := startsWith_iff.mp hsw
      refine ⟨[], t, by simpa using ht, ?_⟩
      by_contra hcon
      simp only [Bool.not_eq_false] at hcon
      have := (containsSub_iff.mp (by simpa using hcon)).length_le
      simp [List.length_dropLast] at this
      omega
    · have hcs : containsSub sep cs = true := by
        revert hc
        simp only [containsSub, Bool.or_eq_true]
        intro h
        rcases h with h | h
        · exact absurd h hsw
        · exact h
      obtain ⟨U, V, hUV, hU⟩ := ih hcs
      refine ⟨c :: U, V, by simp [hUV], ?_⟩
      simp only [List.cons_append, containsSub, Bool.or_eq_false_iff]
      refine ⟨?_, hU⟩
      by_contra hcon
      simp only [Bool.not_eq_false] at hcon
      apply hsw
      have hre : c :: cs = (c :: (U ++ sep.dropLast)) ++ ([sep.getLast hsep] ++ V) := by
        rw [hUV]
        conv_lhs => rw [← List.dropLast_append_getLast hsep]
        simp
      rw [hre]
      exact startsWith_append_ext _ hcon

theorem findSub_append {n : List Char} : ∀ (X Y : List Char),
    containsSub n (X ++ Y.take (n.length - 1)) = false →
    startsWith n Y = true →
    findSub n (X ++ Y) = some X.length := by
  intro X
  induction X with
  | nil =>
    intro Y hc hsw
    cases Y with
    | nil =>
      have : n = [] := by
        cases n with
        | nil => rfl
        | cons a as => simp [startsWith] at hsw
      subst this
      simp [containsSub, startsWith] at hc
    | cons y ys =>
      simp [findSub, hsw]
  | cons x X ih =>
    intro Y hc hsw
    have hnne : n ≠ [] := by
      intro hn
      subst hn
      simp [containsSub, startsWith] at hc
    have hnl : 1 ≤ n.length := by cases n with
      | nil => exact absurd rfl hnne
      | cons a as => simp
    simp only [List.cons_append] at hc
    have hsw2 : startsWith n (x :: (X ++ Y)) = false := by
      by_contra hcon
      simp only [Bool.not_eq_false] at hcon
      have hlen : n.length ≤ (x :: (X ++ Y.take (n.length - 1))).length := by
        have h1 := startsWith_length hcon
        simp only [List.length_cons, List.length_append, List.length_take] at h1 ⊢
        omega
      have hre : x :: (X ++ Y) =
          (x :: (X ++ Y.take (n.length - 1))) ++ Y.drop (n.length - 1) := by
        conv_lhs => rw [← List.take_append_drop (n.length - 1) Y]
        simp
      rw [hre] at hcon
      have := containsSub_of_startsWith (startsWith_of_append_le hlen hcon)
      rw [this] at hc
      exact absurd hc (by simp)
    have hcX : containsSub n (X ++ Y.take (n.length - 1)) = false := by
      revert hc
      simp only [containsSub, Bool.or_eq_false_iff]
      tauto
    simp only [List.cons_append, findSub]
    rw [if_neg (by simp [hsw2])]
    simp only [List.append_eq]
    rw [ih Y hcX hsw]
    simp

/-! ## The rule-2 loop and odd indices -/

theorem oddIndexed_mem {α : Type} {b : α} : ∀ {l : List α}, b ∈ oddIndexed l → b ∈ l := by
  intro l
  induction l using oddIndexed.induct with
  | case1 => simp [oddIndexed]
  | case2 a => simp [oddIndexed]
  | case3 a c rest ih =>
    simp only [oddIndexed, List.mem_cons]
    rintro (rfl | hb)
    · simp
    · simp [ih hb]

theorem findSelectBlock_eq_find : ∀ (l : List (List Char)),
    findSelectBlock l = (oddIndexed l).find? fun b => containsSub cSELECT (pyUpper b) := by
  intro l
  induction l using findSelectBlock.induct with
  | case1 => simp [findSelectBlock, oddIndexed]
  | case2 a => simp [findSelectBlock, oddIndexed]
  | case3 a b rest hsel =>
    simp [findSelectBlock, oddIndexed, List.find?, hsel]
  | case4 a b rest hsel ih =>
    simp only [Bool.not_eq_true] at hsel
    simp [findSelectBlock, oddIndexed, List.find?, hsel, ih]

theorem enumFrom_filter_odd {α : Type} : ∀ (l : List α) (n : Nat),
    ((List.enumFrom n l).filter fun p => p.fst % 2 == 1).map Prod.snd =
    ((List.enumFrom (n + 2) l).filter fun p => p.fst % 2 == 1).map Prod.snd := by
  intro l
  induction l with
  | nil => intro n; simp
  | cons a l ih =>
    intro n
    simp only [List.enumFrom, List.filter]
    have hmod : ((n + 2) % 2 == 1) = (n % 2 == 1) := by
      rw [Nat.add_mod_right]
    rw [hmod]
    by_cases hn : (n % 2 == 1) = true
    · rw [hn]
      simp only [List.map_cons]
      rw [ih (n + 1)]
    · simp only [Bool.not_eq_true] at hn
      rw [hn]
      exact ih (n + 1)

theorem oddIndexed_eq_enum {α : Type} : ∀ (l : List α),
    oddIndexed l = ((l.enum.filter fun p => p.fst % 2 == 1).map Prod.snd) := by
  intro l
  induction l using oddIndexed.induct with
  | case1 => simp [oddIndexed]
  | case2 a => simp [oddIndexed, List.enum, List.enumFrom, List.filter]
  | case3 a c rest ih =>
    have h0 := (enumFrom_filter_odd rest 0).symm
    simp only [Nat.zero_add] at h0
    simp only [oddIndexed, List.enum, List.enumFrom, List.filter_cons]
    norm_num
    rw [h0]
    simp only [List.enum] at ih
    rw [ih]

/-- When the segment list has odd length (an even number of delimiters), the
rule-2 loop never reaches the last segment: dropping it does not change the
loop's result. -/
theorem findSelectBlock_dropLast : ∀ l : List (List Char), l.length % 2 = 1 →
    findSelectBlock l = findSelectBlock l.dropLast := by
  intro l
  induction l using findSelectBlock.induct with
  | case1 => intro h; simp at h
  | case2 a => intro h; simp [findSelectBlock, List.dropLast]
  | case3 a b rest hsel =>
    intro h
    have hrlen : rest.length % 2 = 1 := by
      simp only [List.length_cons] at h; omega
    have hrne : rest ≠ [] := by
      intro hr; rw [hr] at hrlen; simp at hrlen
    obtain ⟨r0, rest2, rfl⟩ := List.exists_cons_of_ne_nil hrne
    simp [findSelectBlock, List.dropLast, hsel]
  | case4 a b rest hsel ih =>
    intro h
    have hrlen : rest.length % 2 = 1 := by
      simp only [List.length_cons] at h; omega
    have hrne : rest ≠ [] := by
      intro hr; rw [hr] at hrlen; simp at hrlen
    obtain ⟨r0, rest2, rfl⟩ := List.exists_cons_of_ne_nil hrne
    simp only [Bool.not_eq_true] at hsel
    simp only [findSelectBlock, List.dropLast, hsel]
    rw [if_neg (by simp [hsel]), if_neg (by simp [hsel])]
    exact ih hrlen

/-! ## Claims -/

/-- C2: `validate_query` rejects a query exactly when its lower-casing contains
one of the six denylist words as a substring; in particular it rejects
`DROP TABLE x`, `create table x(...)` and `SELECT created_at FROM events`
(a false positive), and accepts `SELECT * FROM sales LIMIT 10`. -/
theorem c2_validate_query_denylist :
    (∀ q : List Char, validate_query q = false ↔
      ∃ k ∈ dangerous_keywords, ∃ u v, pyLower q = u ++ k ++ v) ∧
    validate_query (strL "DROP TABLE x") = false ∧
    validate_query (strL "create table x(...)") = false ∧
    validate_query (strL "SELECT created_at FROM events") = false ∧
    validate_query (strL "SELECT * FROM sales LIMIT 10") = true := by
  refine ⟨?_, by decide, by decide, by decide, by decide⟩
  intro q
  simp only [validate_query, Bool.not_eq_false', List.any_eq_true]
  constructor
  · rintro ⟨k, hk, hc⟩
    exact ⟨k, hk, containsSub_iff.mp hc⟩
  · rintro ⟨k, hk, u, v, huv⟩
    exact ⟨k, hk, containsSub_iff.mpr ⟨u, v, huv⟩⟩

/-- C3: a query rejected by the safety gate makes `execute_sql_query` return
the fixed rejection result with the warehouse query runner never invoked (an
empty call trace); and a model response from which no SQL is extracted makes
`execute_nl_query` return the extraction-failure result carrying the raw model
text, likewise with an empty warehouse call trace. -/
theorem c3_gate_blocks_warehouse :
    (∀ (db : List Char → Except (List Char) (List Char)) (q : List Char),
       validate_query q = false →
       execute_sql_query db q = (Except.ok rejectResult, [])) ∧
    (∀ (tables : List (List Char)) (resp : List Char)
       (db : List Char → Except (List Char) (List Char)) (q : List Char),
       extractSqlQuery resp = none →
       execute_nl_query (Except.ok tables) (fun _ => Except.ok resp) db q =
         (Except.ok { error := some (strL "Could not generate valid SQL query"),
                      explanation := some resp }, [])) := by
  constructor
  · intro db q hv
    simp [execute_sql_query, hv]
  · intro tables resp db q hx
    simp [execute_nl_query, hx]

/-- Witness for C3: the gate-rejected query `DROP TABLE t` and the
extraction-free response `I cannot help with that request`, both with an empty
warehouse call trace. -/
theorem c3_witness :
    execute_sql_query dbStub (strL "DROP TABLE t") = (Except.ok rejectResult, []) ∧
    execute_nl_query (Except.ok [strL "sales"])
        (fun _ => Except.ok (strL "I cannot help with that request"))
        dbStub (strL "show sales") =
      (Except.ok { error := some (strL "Could not generate valid SQL query"),
                   explanation := some (strL "I cannot help with that request") }, []) :=
  ⟨c3_gate_blocks_warehouse.1 dbStub _ (by decide),
   c3_gate_blocks_warehouse.2 [strL "sales"] _ dbStub _ (by decide)⟩

/-- C10: any query whose lower-casing avoids all six denylist words passes the
gate — the gate never requires `SELECT` — and `execute_sql_query` then hands
exactly that query string to the warehouse query runner. -/
theorem c10_gate_never_checks_select (q : List Char)
    (h : ∀ k ∈ dangerous_keywords, containsSub k (pyLower q) = false) :
    validate_query q = true ∧
    ∀ db : List Char → Except (List Char) (List Char),
      (execute_sql_query db q).snd = [q] ∧
      ∀ r, db q = Except.ok r →
        (execute_sql_query db q).fst =
          Except.ok { query := some q, result := some r, success := some true } := by
  have hv : validate_query q = true := by
    simp only [validate_query, Bool.not_eq_true', List.any_eq_false]
    intro k hk
    simp [h k hk]
  refine ⟨hv, fun db => ⟨?_, fun r hr => ?_⟩⟩
  · simp only [execute_sql_query, hv, Bool.not_true, Bool.false_eq_true, if_false]
    cases db q <;> simp
  · simp [execute_sql_query, hv, hr]

/-- Witness for C10: the empty string, a `TRUNCATE` and a `MERGE` statement all
pass the gate, and the `MERGE` statement reaches the warehouse verbatim. -/
theorem c10_witness :
    validate_query (strL "") = true ∧
    validate_query (strL "TRUNCATE TABLE t") = true ∧
    validate_query (strL "MERGE INTO tgt USING src ON c") = true ∧
    (execute_sql_query dbStub (strL "MERGE INTO tgt USING src ON c")).snd =
      [strL "MERGE INTO tgt USING src ON c"] :=
  ⟨(c10_gate_never_checks_select (strL "") (by decide)).1,
   (c10_gate_never_checks_select (strL "TRUNCATE TABLE t") (by decide)).1,
   (c10_gate_never_checks_select (strL "MERGE INTO tgt USING src ON c") (by decide)).1,
   ((c10_gate_never_checks_select (strL "MERGE INTO tgt USING src ON c") (by decide)).2 dbStub).1⟩

/-- C9 counterexample: the claim says any text without `SELECT` yields absence,
but a `` ```sql ``-tagged block is returned by rule 1 without any `SELECT`
check: this input contains no `SELECT` yet extraction returns `INSERT 1`. -/
theorem c9_counterexample :
    containsSub cSELECT (pyUpper (strL "```sql INSERT 1 ```")) = false ∧
    extractSqlQuery (strL "```sql INSERT 1 ```") = some (strL "INSERT 1") := by
  exact ⟨by decide, by decide⟩

/-- C9 amended: for input with no `SELECT` anywhere (case-insensitively) and
no `` ```sql ``-tagged block, extraction signals absence. -/
theorem c9_no_select_signals_absence (s : List Char)
    (h1 : containsSub fsql s = false)
    (h2 : containsSub cSELECT (pyUpper s) = false) :
    extractSqlQuery s = none := by
  simp [extractSqlQuery, h1, h2]

/-- Witness for C9 at plain prose with no `SELECT` and no tagged block. -/
theorem c9_witness : extractSqlQuery (strL "The weather is nice today") = none :=
  c9_no_select_signals_absence _ (by decide) (by decide)

/-- C7 counterexample: the claim says that with fence delimiters present and
`SELECT` only outside the inspected segments, rule 3 still fires; but the code
takes the rule-2 branch, the loop finds nothing, and the fall-through
(`UnboundLocalError` caught by the blanket handler) yields absence. -/
theorem c7_counterexample :
    containsSub cSELECT (pyUpper (strL "SELECT a ```b``` c")) = true ∧
    extractSqlQuery (strL "SELECT a ```b``` c") = none := by
  exact ⟨by decide, by decide⟩

/-- C7 amended: rule 3 applies only when the input contains no fence delimiter
at all; when fence delimiters are present but the rule-2 loop finds no
odd-indexed segment containing `SELECT`, extraction signals absence instead of
falling through to rule 3. -/
theorem c7_rule3_only_without_fences :
    (∀ s : List Char, containsSub fence s = false →
       containsSub cSELECT (pyUpper s) = true →
       extractSqlQuery s = some (rule3Val s)) ∧
    (∀ s : List Char, containsSub fsql s = false →
       containsSub fence s = true →
       findSelectBlock (splitOn fence s) = none →
       extractSqlQuery s = none) := by
  constructor
  · intro s hf hsel
    have hfsql : containsSub fsql s = false := by
      by_contra h
      simp only [Bool.not_eq_false] at h
      rw [fsql_fence h] at hf
      exact absurd hf (by simp)
    simp [extractSqlQuery, hfsql, hf, hsel]
  · intro s h1 h2 h3
    by_cases hsel : containsSub cSELECT (pyUpper s) = true
    · simp [extractSqlQuery, h1, h2, hsel, h3]
    · simp only [Bool.not_eq_true] at hsel
      simp [extractSqlQuery, h1, h2, hsel]

/-- Witness for C7: a fenceless response where rule 3 fires, and a fenced
response whose only `SELECT` sits outside the inspected segments, yielding
absence. -/
theorem c7_witness :
    extractSqlQuery (strL "Sure thing\nSELECT a FROM t") =
      some (rule3Val (strL "Sure thing\nSELECT a FROM t")) ∧
    extractSqlQuery (strL "SELECT only outside ```code``` here") = none :=
  ⟨c7_rule3_only_without_fences.1 _ (by decide) (by decide),
   c7_rule3_only_without_fences.2 _ (by decide) (by decide) (by decide)⟩

/-- C8 counterexample: with an odd number of fence delimiters (three, so four
segments) the final segment — the text after the unpaired delimiter — sits at
odd index 3, is examined by the rule-2 loop, and is returned, contradicting
the claim that it is left unexamined. -/
theorem c8_counterexample :
    (splitOn fence (strL "x```y```z``` SELECT a FROM t")).length = 4 ∧
    findSelectBlock (splitOn fence (strL "x```y```z``` SELECT a FROM t")) =
      some ((splitOn fence (strL "x```y```z``` SELECT a FROM t")).getD 3 []) ∧
    extractSqlQuery (strL "x```y```z``` SELECT a FROM t") =
      some (strL "SELECT a FROM t") := by
  exact ⟨by decide, by decide, by decide⟩

/-- C8 amended: it is an even number of fence delimiters (an odd segment
count) that leaves the final segment unexamined by the rule-2 loop: with an
odd segment count, dropping the final segment does not change the loop's
result.  With an odd number of delimiters the final segment sits at an odd
index and is examined (see the counterexample). -/
theorem c8_final_segment_parity (s : List Char)
    (h : (splitOn fence s).length % 2 = 1) :
    findSelectBlock (splitOn fence s) =
      findSelectBlock ((splitOn fence s).dropLast) :=
  findSelectBlock_dropLast _ h

/-- Witness for C8 at an input with two delimiters (three segments). -/
theorem c8_witness :
    findSelectBlock (splitOn fence (strL "a```b```SELECT x")) =
      findSelectBlock ((splitOn fence (strL "a```b```SELECT x")).dropLast) :=
  c8_final_segment_parity _ (by decide)

/-- C1 counterexample: the model client raising inside `execute_nl_query`
(line 84 sits outside any `try` block) propagates to the caller instead of
being converted into an error-shaped result. -/
theorem c1_counterexample :
    (execute_nl_query (Except.ok [strL "sales"])
        (fun _ => Except.error (strL "model unavailable"))
        dbStub (strL "list the sales")).fst =
      Except.error (strL "model unavailable") := rfl

/-- C1 amended: `execute_sql_query`, `list_tables` and `get_table_schema`
catch every collaborator exception at the operation boundary and return a
result (error-shaped when the collaborator raised); `execute_nl_query`
catches only exceptions from the warehouse execution of the extracted query —
exceptions from the catalog table-listing call and from the model invocation
propagate to the caller. -/
theorem c1_exceptions_at_boundary :
    (∀ (db : List Char → Except (List Char) (List Char)) (q : List Char),
       ∃ r, (execute_sql_query db q).fst = Except.ok r) ∧
    (∀ (db : List Char → Except (List Char) (List Char)) (q e : List Char),
       validate_query q = true → db q = Except.error e →
       ∃ r, (execute_sql_query db q).fst = Except.ok r ∧ errorShaped r = true) ∧
    (∀ (tc : Except (List Char) (List (List Char))) (pid did : List Char),
       ∃ r, (list_tables tc pid did).fst = Except.ok r) ∧
    (∀ (e pid did : List Char),
       ∃ r, (list_tables (Except.error e) pid did).fst = Except.ok r ∧
         errorShaped r = true) ∧
    (∀ (gt : List Char → Except (List Char) BQTable) (t : List Char),
       ∃ r, (get_table_schema gt t).fst = Except.ok r) ∧
    (∀ (gt : List Char → Except (List Char) BQTable) (t e : List Char),
       gt t = Except.error e →
       ∃ r, (get_table_schema gt t).fst = Except.ok r ∧ errorShaped r = true) ∧
    (∀ (tables : List (List Char)) (resp : List Char)
       (db : List Char → Except (List Char) (List Char)) (q : List Char),
       ∃ r, (execute_nl_query (Except.ok tables) (fun _ => Except.ok resp) db q).fst =
         Except.ok r) ∧
    (∀ (llm db : List Char → Except (List Char) (List Char)) (q e : List Char),
       (execute_nl_query (Except.error e) llm db q).fst = Except.error e) ∧
    (∀ (tables : List (List Char))
       (db : List Char → Except (List Char) (List Char)) (q e : List Char),
       (execute_nl_query (Except.ok tables) (fun _ => Except.error e) db q).fst =
         Except.error e) := by
  refine ⟨?_, ?_, ?_, ?_, ?_, ?_, ?_, ?_, ?_⟩
  · intro db q
    rcases hres : (execute_sql_query db q).fst with e | r
    · exfalso
      by_cases hv : validate_query q = true
      · cases hd : db q <;> simp [execute_sql_query, hv, hd] at hres
      · simp only [Bool.not_eq_true] at hv
        simp [execute_sql_query, hv] at hres
    · exact ⟨r, rfl⟩
  · intro db q e hv hd
    refine ⟨{ error := some (strL "Error executing query: " ++ e),
              query := some q, success := some false }, ?_, ?_⟩
    · simp [execute_sql_query, hv, hd]
    · simp [errorShaped]
  · intro tc pid did
    rcases hres : (list_tables tc pid did).fst with e | r
    · exfalso
      cases tc <;> simp [list_tables] at hres
    · exact ⟨r, rfl⟩
  · intro e pid did
    refine ⟨{ error := some (strL "Error listing tables: " ++ e) }, ?_, ?_⟩
    · simp [list_tables]
    · simp [errorShaped]
  · intro gt t
    rcases hres : (get_table_schema gt t).fst with e | r
    · exfalso
      cases hg : gt t <;> simp [get_table_schema, hg] at hres
    · exact ⟨r, rfl⟩
  · intro gt t e hg
    refine ⟨{ error := some (strL "Error getting schema for table " ++ t ++
                             strL ": " ++ e) }, ?_, ?_⟩
    · simp [get_table_schema, hg]
    · simp [errorShaped]
  · intro tables resp db q
    rcases hres : (execute_nl_query (Except.ok tables) (fun _ => Except.ok resp) db q).fst
      with e | r
    · exfalso
      cases hx : extractSqlQuery resp with
      | none => simp [execute_nl_query, hx] at hres
      | some sq =>
        by_cases he : sq.isEmpty = true
        · simp [execute_nl_query, hx, he] at hres
        · simp only [Bool.not_eq_true] at he
          by_cases hv : validate_query sq = true
          · cases hd : db sq <;> simp [execute_nl_query, hx, he, hv, hd] at hres
          · simp only [Bool.not_eq_true] at hv
            simp [execute_nl_query, hx, he, hv] at hres
    · exact ⟨r, rfl⟩
  · intro llm db q e
    rfl
  · intro tables db q e
    rfl

/-- Witness for C1: the warehouse runner and the catalog fetch raising, each
converted into an `Except.ok` error-shaped result by its operation. -/
theorem c1_witness :
    (∃ r, (execute_sql_query (fun _ => Except.error (strL "boom"))
        (strL "SELECT 1")).fst = Except.ok r ∧ errorShaped r = true) ∧
    (∃ r, (get_table_schema (fun _ => Except.error (strL "no such table"))
        (strL "t")).fst = Except.ok r ∧ errorShaped r = true) :=
  ⟨c1_exceptions_at_boundary.2.1 _ _ (strL "boom") (by decide) rfl,
   c1_exceptions_at_boundary.2.2.2.2.2.1 _ (strL "t") (strL "no such table") rfl⟩

/-- C5: with no `` ```sql ``-tagged block, a fence delimiter present, and the
first segment at an odd index of the delimiter split (odd indices computed
from an indexed enumeration of the split) whose upper-casing contains
`SELECT`, extraction returns exactly that segment, stripped, with a leading
`sql` tag dropped when present at offset 0 (the `tagStrip` post-processing);
only odd-indexed segments are inspected. -/
theorem c5_rule2_first_odd_segment (s : List Char)
    (h1 : containsSub fsql s = false)
    (h2 : containsSub fence s = true)
    (b : List Char)
    (hb : (((splitOn fence s).enum.filter fun p => p.fst % 2 == 1).map Prod.snd).find?
            (fun x => containsSub cSELECT (pyUpper x)) = some b) :
    extractSqlQuery s = some (tagStrip b) := by
  have hodd : (oddIndexed (splitOn fence s)).find?
      (fun x => containsSub cSELECT (pyUpper x)) = some b := by
    rw [oddIndexed_eq_enum]; exact hb
  have hfsb : findSelectBlock (splitOn fence s) = some b := by
    rw [findSelectBlock_eq_find]; exact hodd
  have hbmem : b ∈ oddIndexed (splitOn fence s) := List.mem_of_find?_eq_some hodd
  have hbpred : containsSub cSELECT (pyUpper b) = true := by
    have := List.find?_some hodd
    simpa using this
  have hbsub : IsSub b s := splitOn_mem (oddIndexed_mem hbmem)
  have hsel : containsSub cSELECT (pyUpper s) = true := by
    obtain ⟨u, v, rfl⟩ := hbsub
    obtain ⟨x, y, hxy⟩ := containsSub_iff.mp hbpred
    refine containsSub_iff.mpr ⟨pyUpper u ++ x, y ++ pyUpper v, ?_⟩
    simp only [pyUpper, List.map_append] at hxy ⊢
    rw [hxy]
    simp [List.append_assoc]
  simp [extractSqlQuery, h1, h2, hsel, hfsb]

/-- Witness for C5: an untagged fenced block carrying a leading `sql` tag. -/
theorem c5_witness :
    extractSqlQuery (strL "use ```\nsql SELECT a FROM t\n``` ok") =
      some (tagStrip (strL "\nsql SELECT a FROM t\n")) :=
  c5_rule2_first_odd_segment _ (by decide) (by decide) _ (by decide)

/-- C6: for fence-free input `P ++ Q` whose first case-insensitive `SELECT`
occurs exactly at the start of `Q` (no occurrence begins within `P`, which is
what excluding `pyUpper (P ++ Q.take 5)` expresses, `SELECT` having six
characters), extraction returns `Q` truncated by `rule3Trunc` — the minimum
over the offsets of whichever of the four end-markers are found, a missing
marker being excluded from the minimum rather than contributing zero, and no
truncation at all when none is found — and finally stripped. -/
theorem c6_rule3_truncation (P Q : List Char)
    (hf : containsSub fence (P ++ Q) = false)
    (hfirst : containsSub cSELECT (pyUpper (P ++ Q.take 5)) = false)
    (hq : startsWith cSELECT (pyUpper Q) = true) :
    extractSqlQuery (P ++ Q) = some (pyStrip (rule3Trunc Q)) := by
  have hfsql : containsSub fsql (P ++ Q) = false := by
    by_contra h
    simp only [Bool.not_eq_false] at h
    rw [fsql_fence h] at hf
    exact absurd hf (by simp)
  have hup : pyUpper (P ++ Q) = pyUpper P ++ pyUpper Q := by simp [pyUpper]
  have hfind : findSub cSELECT (pyUpper (P ++ Q)) = some P.length := by
    rw [hup]
    have h5 : containsSub cSELECT
        (pyUpper P ++ (pyUpper Q).take (cSELECT.length - 1)) = false := by
      have hlen5 : cSELECT.length - 1 = 5 := rfl
      have hcomm : pyUpper (P ++ Q.take 5) = pyUpper P ++ (pyUpper Q).take 5 := by
        simp [pyUpper, List.map_take]
      rw [hlen5]
      rw [hcomm] at hfirst
      exact hfirst
    have := findSub_append (pyUpper P) (pyUpper Q) h5 hq
    simpa [pyUpper] using this
  have hsel : containsSub cSELECT (pyUpper (P ++ Q)) = true := by
    rw [hup]
    exact containsSub_append_right (containsSub_of_startsWith hq)
  have hdrop : (P ++ Q).drop P.length = Q := List.drop_left P Q
  simp [extractSqlQuery, hfsql, hf, hsel, rule3Val, hfind, hdrop]

/-- Witness for C6: prose followed by a query ended by a period-space marker. -/
theorem c6_witness :
    extractSqlQuery (strL "Answer: " ++ strL "SELECT a FROM t. Thanks") =
      some (pyStrip (rule3Trunc (strL "SELECT a FROM t. Thanks"))) :=
  c6_rule3_truncation _ _ (by decide) (by decide) (by decide)

theorem append_pre (X Y P Q : List Char) (h : X ++ Y = P ++ Q)
    (hl : P.length ≤ X.length) : ∃ W, X = P ++ W := by
  refine ⟨Q.take (X.length - P.length), ?_⟩
  have h1 : X = (X ++ Y).take X.length := (List.take_left X Y).symm
  rw [h, List.take_append_eq_append_take, List.take_of_length_le hl] at h1
  exact h1

/-- C4: for any input decomposing as `A ++ "` `` `sql" ++ B ++ "` `` `" ++ C`
where the first occurrence of the tag opener is the explicit one (no
occurrence begins inside `A`) and the block's closing fence is the explicit
one (no fence occurrence begins inside `B`, and no tag opener straddles the
closing fence into `C`), extraction returns exactly the trimmed block content
`B`, regardless of any SQL-looking text in `A` or `C`. -/
theorem c4_rule1_first_tagged_block (A B C : List Char)
    (hA : containsSub fsql (A ++ fsql.dropLast) = false)
    (hB : containsSub fence (B ++ fence.dropLast) = false)
    (hBC : containsSub fsql (B ++ fence ++ C.take 5) = false) :
    extractSqlQuery (A ++ fsql ++ (B ++ fence ++ C)) = some (pyStrip B) := by
  have hfne : fsql ≠ [] := by decide
  have hfene : fence ≠ [] := by decide
  have hs2 : containsSub fsql (A ++ fsql ++ (B ++ fence ++ C)) = true :=
    containsSub_iff.mpr ⟨A, B ++ fence ++ C, rfl⟩
  have hsplit1 : splitOn fsql (A ++ fsql ++ (B ++ fence ++ C)) =
      A :: splitOn fsql (B ++ fence ++ C) := splitOn_cons hfne hA
  have hcore : (splitOn fence ((splitOn fsql (B ++ fence ++ C)).getD 0 [])).getD 0 [] = B := by
    by_cases hcR : containsSub fsql (B ++ fence ++ C) = true
    · obtain ⟨U, V, hUV, hU⟩ := first_occ hfne _ hcR
      have hflen : fsql.length = 6 := rfl
      have hfelen : fence.length = 3 := rfl
      have hlen : B.length + 3 ≤ U.length := by
        by_contra hlt
        push_neg at hlt
        have htake : (B ++ fence ++ C).take (U.length + fsql.length) = U ++ fsql := by
          rw [hUV]
          have h0 := List.take_left (U ++ fsql) V
          rw [List.length_append] at h0
          exact h0
        have hsub1 : IsSub fsql ((B ++ fence ++ C).take (U.length + fsql.length)) := by
          rw [htake]; exact ⟨U, [], by simp⟩
        have hmono : IsSub fsql ((B ++ fence ++ C).take (B.length + 8)) := by
          obtain ⟨x, y, hxy⟩ := hsub1
          have hle : U.length + fsql.length ≤ B.length + 8 := by omega
          refine ⟨x, y ++ ((B ++ fence ++ C).drop (U.length + fsql.length)).take
            (B.length + 8 - (U.length + fsql.length)), ?_⟩
          have hta := List.take_add (B ++ fence ++ C) (U.length + fsql.length)
            (B.length + 8 - (U.length + fsql.length))
          rw [show U.length + fsql.length + (B.length + 8 - (U.length + fsql.length)) =
            B.length + 8 by omega] at hta
          rw [hta, hxy]
          simp [List.append_assoc]
        have heq : (B ++ fence ++ C).take (B.length + 8) = B ++ fence ++ C.take 5 := by
          rw [List.append_assoc B fence C]
          rw [List.take_append_eq_append_take]
          have h2 : B.length + 8 - B.length = 8 := by omega
          rw [h2]
          rw [List.take_of_length_le (by omega : B.length ≤ B.length + 8)]
          rw [List.take_append_eq_append_take]
          rw [List.take_of_length_le (by rw [hfelen]; omega : fence.length ≤ 8)]
          rw [show 8 - fence.length = 5 by rw [hfelen]]
          rw [List.append_assoc]
        rw [heq] at hmono
        rw [containsSub_iff.mpr hmono] at hBC
        exact absurd hBC (by simp)
      have hpre : ∃ W, U = (B ++ fence) ++ W := by
        apply append_pre U (fsql ++ V) (B ++ fence) C
        · calc U ++ (fsql ++ V) = U ++ fsql ++ V := by rw [List.append_assoc]
          _ = B ++ fence ++ C := hUV.symm
          _ = (B ++ fence) ++ C := rfl
        · rw [List.length_append, hfelen]; omega
      obtain ⟨W, hUW⟩ := hpre
      rw [hUV, splitOn_cons hfne hU]
      simp only [List.getD_cons_zero]
      rw [hUW, splitOn_cons hfene hB]
      simp
    · simp only [Bool.not_eq_true] at hcR
      rw [splitOn_no hcR]
      simp only [List.getD_cons_zero]
      rw [splitOn_cons hfene hB]
      simp
  simp only [extractSqlQuery, hs2, if_true, rule1Val]
  rw [hsplit1]
  simp only [List.getD_cons_succ]
  rw [hcore]

/-- Witness for C4: a tagged block surrounded by other SQL-looking text. -/
theorem c4_witness :
    extractSqlQuery (strL "ignore SELECT x FROM y and use " ++ fsql ++
        strL "\nSELECT a FROM t\n" ++ fence ++ strL " done. SELECT z") =
      some (pyStrip (strL "\nSELECT a FROM t\n")) := by
  have h := c4_rule1_first_tagged_block (strL "ignore SELECT x FROM y and use ")
    (strL "\nSELECT a FROM t\n") (strL " done. SELECT z")
    (by decide) (by decide) (by decide)
  simpa [List.append_assoc] using h

end SQLMCP
